import Mathlib

/-!
Verification of the Web Mercator tile program `tiles_demo.py`.

The source is embedded shallowly: Python floats become real numbers, Python
ints become `ℤ`, `raise ValueError` becomes `Except.error`, and the Pillow
canvas is modelled by a record of its geometric content (dimensions,
background colour, per-cell labels, marker position).
-/

open Real

noncomputable section

namespace TilesDemo

/-- `clamp_lat` from `tiles_demo.py`: clamp a latitude to the Web Mercator
range `[-85.05112878, 85.05112878]`. -/
def clamp_lat (lat : ℝ) : ℝ :=
  max (min lat 85.05112878) (-85.05112878)

/-- The kinds of `ValueError` raised by the program (the spec calls all of
them `InvalidArgument`): out-of-range longitude, out-of-range zoom, and a
grid size that is even or smaller than 1. -/
inductive TileError where
  | invalidLon : TileError
  | invalidZoom : TileError
  | invalidGrid : TileError
deriving DecidableEq

/-- Python `int(r)` applied to a real number: truncation toward zero. -/
def pyTrunc (r : ℝ) : ℤ :=
  if 0 ≤ r then ⌊r⌋ else ⌈r⌉

/-- The normalized x coordinate `x_norm = (lon + 180) / 360` computed by
`latlon_to_tile`. -/
def x_norm (lon : ℝ) : ℝ := (lon + 180) / 360

/-- The normalized Web Mercator y coordinate computed by `latlon_to_tile`:
`(1 - log(tan(lat_rad) + 1/cos(lat_rad)) / pi) / 2` with
`lat_rad = radians(lat)`. -/
def y_norm (lat : ℝ) : ℝ :=
  (1 - Real.log (Real.tan (lat * π / 180) + 1 / Real.cos (lat * π / 180)) / π) / 2

/-- `latlon_to_tile` from `tiles_demo.py`.  The latitude is clamped before
any validation; longitude and zoom are validated; then the tile indices are
the floors of the normalized coordinates scaled by `n = 2 ** z`, clamped
into `[0, n-1]`, and the in-tile pixel offsets are the truncated total
pixel coordinates modulo `tile_size`. -/
def latlon_to_tile (lat lon : ℝ) (z : ℤ) (tile_size : ℤ) :
    Except TileError (ℤ × ℤ × ℤ × ℤ) :=
  let lat' := clamp_lat lat
  if ¬(-180 ≤ lon ∧ lon ≤ 180) then .error .invalidLon
  else if ¬(0 ≤ z ∧ z ≤ 22) then .error .invalidZoom
  else
    let n : ℤ := 2 ^ z.toNat
    let x_tile : ℤ := ⌊x_norm lon * (n : ℝ)⌋
    let y_tile : ℤ := ⌊y_norm lat' * (n : ℝ)⌋
    let x_px_total : ℝ := x_norm lon * (n : ℝ) * (tile_size : ℝ)
    let y_px_total : ℝ := y_norm lat' * (n : ℝ) * (tile_size : ℝ)
    let px_in_tile : ℤ := pyTrunc x_px_total % tile_size
    let py_in_tile : ℤ := pyTrunc y_px_total % tile_size
    .ok (max 0 (min x_tile (n - 1)), max 0 (min y_tile (n - 1)),
         px_in_tile, py_in_tile)

/-- `lon_deg` from `tile_to_bounds`: `tx / n * 360 - 180`. -/
def lon_deg (n : ℤ) (tx : ℤ) : ℝ := (tx : ℝ) / (n : ℝ) * 360 - 180

/-- `lat_deg` from `tile_to_bounds`:
`degrees(atan(sinh(pi * (1 - 2 * ty / n))))`. -/
def lat_deg (n : ℤ) (ty : ℤ) : ℝ :=
  Real.arctan (Real.sinh (π * (1 - 2 * (ty : ℝ) / (n : ℝ)))) * 180 / π

/-- `tile_to_bounds` from `tiles_demo.py`: the geographic rectangle of tile
`(x, y)` at zoom `z`, returned in the source's order
`(lon_min, lat_min, lon_max, lat_max)` with `lat_min = lat_deg (y+1)` and
`lat_max = lat_deg y`. -/
def tile_to_bounds (x y : ℤ) (z : ℤ) : ℝ × ℝ × ℝ × ℝ :=
  let n : ℤ := 2 ^ z.toNat
  (lon_deg n x, lat_deg n (y + 1), lon_deg n (x + 1), lat_deg n y)

/-- One text label drawn by `draw_grid` in cell `(gx, gy)`: the label text
shows the tile address `X=tileX  Y=tileY / Z=zoom`. -/
structure TileLabel where
  gx : ℤ
  gy : ℤ
  tileX : ℤ
  tileY : ℤ
  zoom : ℤ
deriving DecidableEq

/-- The labels drawn by the double loop in `draw_grid`: for `gy` and `gx`
ranging over `range(grid)`, the cell `(gx, gy)` is labelled with tile
address `(x_c + (gx - half), y_c + (gy - half))`, unclamped. -/
def gridLabels (x_c y_c half z : ℤ) (grid : ℕ) : List TileLabel :=
  (List.range grid).flatMap fun gy =>
    (List.range grid).map fun gx =>
      { gx := (gx : ℤ), gy := (gy : ℤ),
        tileX := x_c + ((gx : ℤ) - half), tileY := y_c + ((gy : ℤ) - half),
        zoom := z }

/-- The in-memory raster produced by `draw_grid`, modelled by its geometric
content: canvas size, background colour, the per-cell tile-address labels,
the marker position, and the resolved center tile and pixel offset. -/
structure GridImage where
  width : ℤ
  height : ℤ
  bgColor : ℤ × ℤ × ℤ
  labels : List TileLabel
  markerX : ℤ
  markerY : ℤ
  centerX : ℤ
  centerY : ℤ
  px : ℤ
  py : ℤ
deriving DecidableEq

/-- `draw_grid` from `tiles_demo.py`: reject an even or non-positive grid
size, project the point via `latlon_to_tile`, then build the
`grid*tile_size` square white canvas with labels and marker. -/
def draw_grid (lat lon : ℝ) (z : ℤ) (grid : ℤ) (tile_size : ℤ) :
    Except TileError GridImage :=
  if grid % 2 = 0 ∨ grid < 1 then .error .invalidGrid
  else
    match latlon_to_tile lat lon z tile_size with
    | .error e => .error e
    | .ok (x_c, y_c, px, py) =>
      let half := grid / 2
      let width := grid * tile_size
      let height := grid * tile_size
      .ok { width := width, height := height, bgColor := (255, 255, 255),
            labels := gridLabels x_c y_c half z grid.toNat,
            markerX := half * tile_size + px, markerY := half * tile_size + py,
            centerX := x_c, centerY := y_c, px := px, py := py }

/-- One console line printed by `render_zooms` for one zoom level: either a
success line (together with the saved image) or an error line. -/
inductive RenderEvent where
  | okLine (z : ℤ) (img : GridImage)
  | errorLine (z : ℤ) (e : TileError)
deriving DecidableEq

/-- `render_zooms` from `tiles_demo.py`: each zoom level is processed
independently inside `try/except`, producing one `[OK]` line (with a saved
file) on success and one `[ERROR]` line on failure, never aborting. -/
def render_zooms (lat lon : ℝ) (zooms : List ℤ) (grid tile_size : ℤ) :
    List RenderEvent :=
  zooms.map fun z =>
    match draw_grid lat lon z grid tile_size with
    | .ok img => .okLine z img
    | .error e => .errorLine z e

/-- The zoom levels for which `render_zooms` saves an output file
`grid_z{z}.png`: exactly those whose `draw_grid` call succeeds. -/
def saved_zooms (lat lon : ℝ) (zooms : List ℤ) (grid tile_size : ℤ) :
    List ℤ :=
  zooms.filter fun z => (draw_grid lat lon z grid tile_size).toOption.isSome

end TilesDemo

namespace TilesDemo

/-! ### Basic lemmas about the embedding -/

lemma clamp_lat_mem (v : ℝ) :
    -85.05112878 ≤ clamp_lat v ∧ clamp_lat v ≤ 85.05112878 := by
  unfold clamp_lat
  constructor
  · exact le_max_right _ _
  · exact max_le (le_trans (min_le_right _ _) (by norm_num)) (by norm_num)

lemma clamp_lat_of_mem {v : ℝ} (h1 : -85.05112878 ≤ v) (h2 : v ≤ 85.05112878) :
    clamp_lat v = v := by
  unfold clamp_lat
  rw [min_eq_left h2, max_eq_left h1]

/-- `latlon_to_tile` evaluated on valid longitude and zoom. -/
lemma latlon_to_tile_ok (lat lon : ℝ) (z tile_size : ℤ)
    (hlon : -180 ≤ lon ∧ lon ≤ 180) (hz : 0 ≤ z ∧ z ≤ 22) :
    latlon_to_tile lat lon z tile_size =
      .ok (max 0 (min ⌊x_norm lon * ((2 ^ z.toNat : ℤ) : ℝ)⌋ (2 ^ z.toNat - 1)),
           max 0 (min ⌊y_norm (clamp_lat lat) * ((2 ^ z.toNat : ℤ) : ℝ)⌋ (2 ^ z.toNat - 1)),
           pyTrunc (x_norm lon * ((2 ^ z.toNat : ℤ) : ℝ) * (tile_size : ℝ)) % tile_size,
           pyTrunc (y_norm (clamp_lat lat) * ((2 ^ z.toNat : ℤ) : ℝ) * (tile_size : ℝ)) % tile_size) := by
  unfold latlon_to_tile
  rw [if_neg (by simpa using hlon), if_neg (by simpa using hz)]

/-- `latlon_to_tile` never reports a grid error. -/
lemma latlon_to_tile_ne_gridError (lat lon : ℝ) (z tile_size : ℤ) :
    latlon_to_tile lat lon z tile_size ≠ .error .invalidGrid := by
  unfold latlon_to_tile
  split_ifs <;> simp

/-- `latlon_to_tile` on an out-of-range longitude. -/
lemma latlon_to_tile_err_lon (lat lon : ℝ) (z tile_size : ℤ)
    (hlon : ¬(-180 ≤ lon ∧ lon ≤ 180)) :
    latlon_to_tile lat lon z tile_size = .error .invalidLon := by
  unfold latlon_to_tile
  rw [if_pos (by simpa using hlon)]

/-- `latlon_to_tile` on a valid longitude but out-of-range zoom. -/
lemma latlon_to_tile_err_zoom (lat lon : ℝ) (z tile_size : ℤ)
    (hlon : -180 ≤ lon ∧ lon ≤ 180) (hz : ¬(0 ≤ z ∧ z ≤ 22)) :
    latlon_to_tile lat lon z tile_size = .error .invalidZoom := by
  unfold latlon_to_tile
  rw [if_neg (by simpa using hlon), if_pos (by simpa using hz)]

/-! ### C9: clamping is idempotent and total -/

/-- C9: for every real `v`, `clamp_lat (clamp_lat v) = clamp_lat v`, and
`clamp_lat` always succeeds (it is a total function) with a result in
`[-85.05112878, 85.05112878]`. -/
theorem C9_clamp_lat_idempotent_and_range (v : ℝ) :
    clamp_lat (clamp_lat v) = clamp_lat v ∧
    -85.05112878 ≤ clamp_lat v ∧ clamp_lat v ≤ 85.05112878 := by
  obtain ⟨h1, h2⟩ := clamp_lat_mem v
  exact ⟨clamp_lat_of_mem h1 h2, h1, h2⟩

/-! ### C3: longitude/zoom validation of `latlon_to_tile` -/

/-- C3: `latlon_to_tile` succeeds exactly when the longitude lies in
`[-180, 180]` and the zoom lies in `[0, 22]`; whenever it fails, the error
is one of the two `InvalidArgument` kinds (bad longitude or bad zoom). -/
theorem C3_lon_zoom_validation (lat lon : ℝ) (z : ℤ) :
    ((∃ t, latlon_to_tile lat lon z 256 = .ok t) ↔
      (-180 ≤ lon ∧ lon ≤ 180 ∧ 0 ≤ z ∧ z ≤ 22)) ∧
    (¬(-180 ≤ lon ∧ lon ≤ 180 ∧ 0 ≤ z ∧ z ≤ 22) →
      latlon_to_tile lat lon z 256 = .error .invalidLon ∨
      latlon_to_tile lat lon z 256 = .error .invalidZoom) := by
  by_cases hlon : -180 ≤ lon ∧ lon ≤ 180
  · by_cases hz : 0 ≤ z ∧ z ≤ 22
    · rw [latlon_to_tile_ok lat lon z 256 hlon hz]
      constructor
      · exact ⟨fun _ => ⟨hlon.1, hlon.2, hz.1, hz.2⟩, fun _ => ⟨_, rfl⟩⟩
      · intro hc
        exact absurd ⟨hlon.1, hlon.2, hz.1, hz.2⟩ hc
    · rw [latlon_to_tile_err_zoom lat lon z 256 hlon hz]
      constructor
      · constructor
        · rintro ⟨t, ht⟩
          exact absurd ht (by simp)
        · rintro ⟨-, -, h3, h4⟩
          exact absurd ⟨h3, h4⟩ hz
      · exact fun _ => Or.inr rfl
  · rw [latlon_to_tile_err_lon lat lon z 256 hlon]
    constructor
    · constructor
      · rintro ⟨t, ht⟩
        exact absurd ht (by simp)
      · rintro ⟨h1, h2, -⟩
        exact absurd ⟨h1, h2⟩ hlon
    · exact fun _ => Or.inl rfl

/-- Witness for C3 at concrete inputs: a valid call succeeds and a call with
longitude 300 fails with one of the two argument errors. -/
theorem C3_witness :
    (∃ t, latlon_to_tile 0 0 5 256 = .ok t) ∧
    (latlon_to_tile 0 300 5 256 = .error .invalidLon ∨
     latlon_to_tile 0 300 5 256 = .error .invalidZoom) :=
  ⟨(C3_lon_zoom_validation 0 0 5).1.mpr (by norm_num),
   (C3_lon_zoom_validation 0 300 5).2 (by norm_num)⟩

/-! ### C10: latitude never causes a failure -/

/-- C10: `latlon_to_tile` never fails because of the latitude: for every
latitude (including values outside `[-90, 90]`) the call succeeds whenever
the longitude is in `[-180, 180]` and the zoom is in `[0, 22]`, because the
latitude is clamped before any validation and is itself never validated. -/
theorem C10_latitude_never_fails (lat lon : ℝ) (z : ℤ)
    (hlon : -180 ≤ lon ∧ lon ≤ 180) (hz : 0 ≤ z ∧ z ≤ 22) :
    ∃ t, latlon_to_tile lat lon z 256 = .ok t := by
  rw [latlon_to_tile_ok lat lon z 256 hlon hz]
  exact ⟨_, rfl⟩

/-- Witness for C10 at a latitude far outside `[-90, 90]`. -/
theorem C10_witness : ∃ t, latlon_to_tile 1000 0 5 256 = .ok t :=
  C10_latitude_never_fails 1000 0 5 (by norm_num) (by norm_num)

/-! ### C1: range invariant of `latlon_to_tile` -/

/-- C1: for every latitude in `[-85.0511, 85.0511]`, longitude in
`[-180, 180]`, zoom in `[0, 22]` and positive tile size, `latlon_to_tile`
returns tile indices with `0 ≤ x, y < 2 ^ zoom` and integer pixel offsets
in `[0, tile_size)`. -/
theorem C1_range_invariant (lat lon : ℝ) (z tile_size : ℤ)
    (_hlat : -85.0511 ≤ lat ∧ lat ≤ 85.0511)
    (hlon : -180 ≤ lon ∧ lon ≤ 180)
    (hz : 0 ≤ z ∧ z ≤ 22) (hts : 0 < tile_size) :
    ∃ x y px py, latlon_to_tile lat lon z tile_size = .ok (x, y, px, py) ∧
      0 ≤ x ∧ x < 2 ^ z.toNat ∧ 0 ≤ y ∧ y < 2 ^ z.toNat ∧
      0 ≤ px ∧ px < tile_size ∧ 0 ≤ py ∧ py < tile_size := by
  have hn : (0 : ℤ) < 2 ^ z.toNat := pow_pos (by norm_num) _
  rw [latlon_to_tile_ok lat lon z tile_size hlon hz]
  refine ⟨_, _, _, _, rfl, le_max_left 0 _, ?_, le_max_left 0 _, ?_,
    Int.emod_nonneg _ (ne_of_gt hts), Int.emod_lt_of_pos _ hts,
    Int.emod_nonneg _ (ne_of_gt hts), Int.emod_lt_of_pos _ hts⟩
  · have h := max_le (show (0:ℤ) ≤ 2 ^ z.toNat - 1 by omega)
      (min_le_right ⌊x_norm lon * ((2 ^ z.toNat : ℤ) : ℝ)⌋ (2 ^ z.toNat - 1))
    omega
  · have h := max_le (show (0:ℤ) ≤ 2 ^ z.toNat - 1 by omega)
      (min_le_right ⌊y_norm (clamp_lat lat) * ((2 ^ z.toNat : ℤ) : ℝ)⌋ (2 ^ z.toNat - 1))
    omega

/-- Witness for C1 at `lat = 0`, `lon = 0`, `z = 5`, `tile_size = 256`. -/
theorem C1_witness :
    ∃ x y px py, latlon_to_tile 0 0 5 256 = .ok (x, y, px, py) ∧
      0 ≤ x ∧ x < 2 ^ (5 : ℤ).toNat ∧ 0 ≤ y ∧ y < 2 ^ (5 : ℤ).toNat ∧
      0 ≤ px ∧ px < 256 ∧ 0 ≤ py ∧ py < 256 :=
  C1_range_invariant 0 0 5 256 (by norm_num) (by norm_num) (by norm_num)
    (by norm_num)

/-! ### C6: grid-size validation of `draw_grid` -/

/-- C6: `draw_grid` fails with the grid-size `InvalidArgument` error exactly
when the grid size is even or smaller than 1 (and in that case no
projection or rendering output is produced); for every odd grid size at
least 1 the grid-size check passes. -/
theorem C6_grid_validation (lat lon : ℝ) (z grid tile_size : ℤ) :
    draw_grid lat lon z grid tile_size = .error .invalidGrid ↔
      (grid % 2 = 0 ∨ grid < 1) := by
  unfold draw_grid
  by_cases h : grid % 2 = 0 ∨ grid < 1
  · rw [if_pos h]
    exact iff_of_true rfl h
  · rw [if_neg h]
    simp only [h, iff_false]
    have hne := latlon_to_tile_ne_gridError lat lon z tile_size
    rcases he : latlon_to_tile lat lon z tile_size with e | t
    · rw [he] at hne
      simp only [he]
      intro hc
      have he' : e = TileError.invalidGrid := by injection hc
      rw [he'] at hne
      exact hne rfl
    · obtain ⟨x_c, y_c, px, py⟩ := t
      simp [he]

/-! ### Monotonicity of the inverse projection -/

/-- `lon_deg` is strictly monotone in the tile column. -/
lemma lon_deg_strictMono (n : ℤ) (hn : (0 : ℝ) < (n : ℝ)) {s t : ℤ}
    (hst : s < t) : lon_deg n s < lon_deg n t := by
  unfold lon_deg
  have hst' : (s : ℝ) < (t : ℝ) := by exact_mod_cast hst
  have h : (s : ℝ) / (n : ℝ) < (t : ℝ) / (n : ℝ) := by gcongr
  nlinarith

/-- `lat_deg` is strictly antitone in the tile row. -/
lemma lat_deg_strictAnti (n : ℤ) (hn : (0 : ℝ) < (n : ℝ)) {s t : ℤ}
    (hst : s < t) : lat_deg n t < lat_deg n s := by
  unfold lat_deg
  have hst' : (s : ℝ) < (t : ℝ) := by exact_mod_cast hst
  have h2 : 2 * (s : ℝ) / (n : ℝ) < 2 * (t : ℝ) / (n : ℝ) := by gcongr
  have harg : π * (1 - 2 * (t : ℝ) / (n : ℝ)) < π * (1 - 2 * (s : ℝ) / (n : ℝ)) :=
    mul_lt_mul_of_pos_left (by linarith) Real.pi_pos
  rw [div_lt_div_iff_of_pos_right Real.pi_pos]
  exact mul_lt_mul_of_pos_right
    (Real.arctan_strictMono (Real.sinh_lt_sinh.mpr harg)) (by norm_num)

/-! ### C4: shape of `tile_to_bounds` -/

/-- C4: for every valid tile, `tile_to_bounds` returns a rectangle with
`latMin < latMax` and `lonMin < lonMax`, whose sides are given by the
inverse-projection formulas `lon(tx) = tx/n*360 - 180` and
`lat(ty) = atan(sinh(pi*(1 - 2*ty/n)))` in degrees, with `lonMin = lon(x)`,
`lonMax = lon(x+1)`, `latMax = lat(y)` and `latMin = lat(y+1)`. -/
theorem C4_bounds_shape (x y z : ℤ)
    (_hx : 0 ≤ x ∧ x < 2 ^ z.toNat) (_hy : 0 ≤ y ∧ y < 2 ^ z.toNat)
    (_hz : 0 ≤ z ∧ z ≤ 22) :
    ∃ lonMin latMin lonMax latMax,
      tile_to_bounds x y z = (lonMin, latMin, lonMax, latMax) ∧
      latMin < latMax ∧ lonMin < lonMax ∧
      lonMin = (x : ℝ) / ((2 ^ z.toNat : ℤ) : ℝ) * 360 - 180 ∧
      lonMax = ((x : ℝ) + 1) / ((2 ^ z.toNat : ℤ) : ℝ) * 360 - 180 ∧
      latMax = Real.arctan (Real.sinh (π * (1 - 2 * (y : ℝ) / ((2 ^ z.toNat : ℤ) : ℝ)))) * 180 / π ∧
      latMin = Real.arctan (Real.sinh (π * (1 - 2 * ((y : ℝ) + 1) / ((2 ^ z.toNat : ℤ) : ℝ)))) * 180 / π := by
  have hN : (0 : ℝ) < ((2 ^ z.toNat : ℤ) : ℝ) := by positivity
  refine ⟨lon_deg (2 ^ z.toNat) x, lat_deg (2 ^ z.toNat) (y + 1),
    lon_deg (2 ^ z.toNat) (x + 1), lat_deg (2 ^ z.toNat) y, rfl,
    lat_deg_strictAnti _ hN (by omega), lon_deg_strictMono _ hN (by omega),
    rfl, ?_, rfl, ?_⟩
  · unfold lon_deg
    push_cast
    ring
  · unfold lat_deg
    push_cast
    ring

/-- Witness for C4 at tile `(0, 0)` and zoom 0. -/
theorem C4_witness :
    ∃ lonMin latMin lonMax latMax,
      tile_to_bounds 0 0 0 = (lonMin, latMin, lonMax, latMax) ∧
      latMin < latMax ∧ lonMin < lonMax ∧
      lonMin = (0 : ℝ) / ((2 ^ (0 : ℤ).toNat : ℤ) : ℝ) * 360 - 180 ∧
      lonMax = ((0 : ℝ) + 1) / ((2 ^ (0 : ℤ).toNat : ℤ) : ℝ) * 360 - 180 ∧
      latMax = Real.arctan (Real.sinh (π * (1 - 2 * (0 : ℝ) / ((2 ^ (0 : ℤ).toNat : ℤ) : ℝ)))) * 180 / π ∧
      latMin = Real.arctan (Real.sinh (π * (1 - 2 * ((0 : ℝ) + 1) / ((2 ^ (0 : ℤ).toNat : ℤ) : ℝ)))) * 180 / π := by
  have h := C4_bounds_shape 0 0 0 (by norm_num) (by norm_num) (by norm_num)
  simpa using h

/-! ### Evaluation of `draw_grid` -/

/-- `draw_grid` on a valid grid size and valid longitude/zoom succeeds, and
the resulting image has the canvas geometry and labels of the source. -/
lemma draw_grid_ok (lat lon : ℝ) (z grid tile_size : ℤ)
    (hgrid : grid % 2 = 1 ∧ 1 ≤ grid)
    (hlon : -180 ≤ lon ∧ lon ≤ 180) (hz : 0 ≤ z ∧ z ≤ 22) :
    ∃ img, draw_grid lat lon z grid tile_size = .ok img ∧
      img.width = grid * tile_size ∧ img.height = grid * tile_size ∧
      img.bgColor = (255, 255, 255) ∧
      img.labels = gridLabels img.centerX img.centerY (grid / 2) z grid.toNat := by
  unfold draw_grid
  rw [if_neg (by omega), latlon_to_tile_ok lat lon z tile_size hlon hz]
  exact ⟨_, rfl, rfl, rfl, rfl, rfl⟩

/-- `draw_grid` with a good grid size but an out-of-range zoom fails with
the zoom error. -/
lemma draw_grid_err_zoom (lat lon : ℝ) (z grid tile_size : ℤ)
    (hgrid : grid % 2 = 1 ∧ 1 ≤ grid)
    (hlon : -180 ≤ lon ∧ lon ≤ 180) (hz : ¬(0 ≤ z ∧ z ≤ 22)) :
    draw_grid lat lon z grid tile_size = .error .invalidZoom := by
  unfold draw_grid
  rw [if_neg (by omega), latlon_to_tile_err_zoom lat lon z tile_size hlon hz]

/-- `latlon_to_tile` at the origin with zoom 0: center tile `(0, 0)`,
pixel offset `(128, 128)`. -/
lemma latlon_to_tile_origin : latlon_to_tile 0 0 0 256 = .ok (0, 0, 128, 128) := by
  rw [latlon_to_tile_ok 0 0 0 256 (by norm_num) (by norm_num)]
  have hc : clamp_lat 0 = 0 := clamp_lat_of_mem (by norm_num) (by norm_num)
  have hx : x_norm 0 = 1 / 2 := by unfold x_norm; norm_num
  have hy : y_norm 0 = 1 / 2 := by
    unfold y_norm
    rw [show (0 : ℝ) * π / 180 = 0 by ring, Real.tan_zero, Real.cos_zero]
    norm_num
  rw [hc, hx, hy]
  norm_num [pyTrunc]

/-- `draw_grid` at the origin with zoom 0 and a 3x3 grid of 256-pixel
tiles. -/
lemma draw_grid_origin :
    draw_grid 0 0 0 3 256 =
      .ok { width := 768, height := 768, bgColor := (255, 255, 255),
            labels := gridLabels 0 0 1 0 3, markerX := 384, markerY := 384,
            centerX := 0, centerY := 0, px := 128, py := 128 } := by
  unfold draw_grid
  rw [if_neg (by norm_num), latlon_to_tile_origin]
  rfl

/-! ### C8: canvas geometry -/

/-- C8: for every valid input, `draw_grid` produces a white-background
canvas of exactly `(grid * tile_size) x (grid * tile_size)` pixels. -/
theorem C8_canvas_geometry (lat lon : ℝ) (z grid tile_size : ℤ)
    (hgrid : grid % 2 = 1 ∧ 1 ≤ grid)
    (hlon : -180 ≤ lon ∧ lon ≤ 180) (hz : 0 ≤ z ∧ z ≤ 22) :
    ∃ img, draw_grid lat lon z grid tile_size = .ok img ∧
      img.width = grid * tile_size ∧ img.height = grid * tile_size ∧
      img.bgColor = (255, 255, 255) := by
  obtain ⟨img, h1, h2, h3, h4, -⟩ := draw_grid_ok lat lon z grid tile_size hgrid hlon hz
  exact ⟨img, h1, h2, h3, h4⟩

/-- Witness for C8: a 3x3 grid of 256-pixel tiles yields a 768x768 white
canvas. -/
theorem C8_witness :
    ∃ img, draw_grid 0 0 0 3 256 = .ok img ∧
      img.width = 768 ∧ img.height = 768 ∧ img.bgColor = (255, 255, 255) := by
  obtain ⟨img, h1, h2, h3, h4⟩ :=
    C8_canvas_geometry 0 0 0 3 256 (by norm_num) (by norm_num) (by norm_num)
  refine ⟨img, h1, ?_, ?_, h4⟩
  · rw [h2]; norm_num
  · rw [h3]; norm_num

/-! ### C7: labels are not clamped -/

/-- C7: every cell `(gx, gy)` of the grid is labelled with the tile address
`(centerX + gx - half, centerY + gy - half)` where `half = grid / 2`, with
no clamping to `[0, 2^z - 1]`; consequently at zoom 0 with the point at the
origin and a 3x3 grid, some label carries a negative tile index, while the
center tile itself is in range. -/
theorem C7_labels_unclamped :
    (∀ (lat lon : ℝ) (z grid tile_size : ℤ) (img : GridImage),
        draw_grid lat lon z grid tile_size = .ok img →
        ∀ l ∈ img.labels,
          l.tileX = img.centerX + (l.gx - grid / 2) ∧
          l.tileY = img.centerY + (l.gy - grid / 2) ∧ l.zoom = z) ∧
    (∃ img, draw_grid 0 0 0 3 256 = .ok img ∧
        (∃ l ∈ img.labels, l.tileX < 0) ∧
        0 ≤ img.centerX ∧ img.centerX < 2 ^ (0 : ℤ).toNat ∧
        0 ≤ img.centerY ∧ img.centerY < 2 ^ (0 : ℤ).toNat) := by
  constructor
  · intro lat lon z grid tile_size img himg l hl
    unfold draw_grid at himg
    by_cases hgrid : grid % 2 = 0 ∨ grid < 1
    · rw [if_pos hgrid] at himg
      exact absurd himg (by simp)
    · rw [if_neg hgrid] at himg
      rcases he : latlon_to_tile lat lon z tile_size with e | t
      · rw [he] at himg
        exact absurd himg (by simp)
      · obtain ⟨x_c, y_c, px, py⟩ := t
        rw [he] at himg
        have himg' := himg
        injection himg' with h
        subst h
        simp only [gridLabels, List.mem_flatMap, List.mem_map, List.mem_range] at hl
        obtain ⟨gy, -, gx, -, rfl⟩ := hl
        exact ⟨rfl, rfl, rfl⟩
  · refine ⟨_, draw_grid_origin, ?_, by norm_num, by norm_num, by norm_num, by norm_num⟩
    refine ⟨{ gx := 0, gy := 0, tileX := -1, tileY := -1, zoom := 0 }, ?_, by norm_num⟩
    show _ ∈ gridLabels 0 0 1 0 3
    decide

/-- Witness for C7: the label formula instantiated on the concrete image
rendered at the origin. -/
theorem C7_witness :
    ∃ img, draw_grid 0 0 0 3 256 = .ok img ∧
      ∀ l ∈ img.labels,
        l.tileX = img.centerX + (l.gx - 3 / 2) ∧
        l.tileY = img.centerY + (l.gy - 3 / 2) ∧ l.zoom = 0 :=
  ⟨_, draw_grid_origin,
    C7_labels_unclamped.1 0 0 0 3 256 _ draw_grid_origin⟩

/-! ### C5: per-zoom error isolation in the batch driver -/

/-- C5: `render_zooms` never aborts: it emits exactly one event per
requested zoom level, a success line (with a saved file) for every valid
zoom and an error line for every invalid one, and the saved files are
exactly those of the valid zoom levels. -/
theorem C5_batch_error_isolation (lat lon : ℝ) (zooms : List ℤ)
    (grid tile_size : ℤ)
    (hlon : -180 ≤ lon ∧ lon ≤ 180) (hgrid : grid % 2 = 1 ∧ 1 ≤ grid) :
    (render_zooms lat lon zooms grid tile_size).length = zooms.length ∧
    saved_zooms lat lon zooms grid tile_size =
      zooms.filter (fun z => decide (0 ≤ z ∧ z ≤ 22)) ∧
    ∀ (i : ℕ) (z : ℤ), zooms[i]? = some z →
      ((0 ≤ z ∧ z ≤ 22 → ∃ img,
          (render_zooms lat lon zooms grid tile_size)[i]? =
            some (RenderEvent.okLine z img)) ∧
       (¬(0 ≤ z ∧ z ≤ 22) → ∃ e,
          (render_zooms lat lon zooms grid tile_size)[i]? =
            some (RenderEvent.errorLine z e))) := by
  refine ⟨by simp [render_zooms], ?_, ?_⟩
  · unfold saved_zooms
    apply List.filter_congr
    intro z _
    by_cases hz : 0 ≤ z ∧ z ≤ 22
    · obtain ⟨img, h1, -⟩ := draw_grid_ok lat lon z grid tile_size hgrid hlon hz
      simp [h1, hz, Except.toOption]
    · rw [draw_grid_err_zoom lat lon z grid tile_size hgrid hlon hz]
      simp [hz, Except.toOption]
  · intro i z hi
    constructor
    · intro hz
      obtain ⟨img, h1, -⟩ := draw_grid_ok lat lon z grid tile_size hgrid hlon hz
      refine ⟨img, ?_⟩
      unfold render_zooms
      rw [List.getElem?_map, hi]
      simp [h1]
    · intro hz
      refine ⟨.invalidZoom, ?_⟩
      unfold render_zooms
      rw [List.getElem?_map, hi]
      simp [draw_grid_err_zoom lat lon z grid tile_size hgrid hlon hz]

/-- Witness for C5: the spec's scenario `zooms = [5, 30]` at the origin:
two events, the file saved exactly for zoom 5, a success line for zoom 5
and an error line for zoom 30. -/
theorem C5_witness :
    (render_zooms 0 0 [5, 30] 3 256).length = 2 ∧
    saved_zooms 0 0 [5, 30] 3 256 = [5] ∧
    (∃ img, (render_zooms 0 0 [5, 30] 3 256)[0]? = some (.okLine 5 img)) ∧
    (∃ e, (render_zooms 0 0 [5, 30] 3 256)[1]? = some (.errorLine 30 e)) := by
  obtain ⟨hlen, hsaved, hpt⟩ :=
    C5_batch_error_isolation 0 0 [5, 30] 3 256 (by norm_num) (by norm_num)
  refine ⟨by rw [hlen]; rfl, ?_, ?_, ?_⟩
  · rw [hsaved]
    decide
  · exact (hpt 0 5 rfl).1 (by norm_num)
  · exact (hpt 1 30 rfl).2 (by norm_num)

/-! ### Analytic groundwork for the round-trip claim

The round trip through the tile center needs three ingredients: a Taylor
lower bound for `arctan`, strict monotonicity of the Mercator integrand
`tan + sec`, and the Gudermannian identity
`tan (arctan (sinh v)) + sec (arctan (sinh v)) = exp v`. -/

lemma arctan_poly_hasDeriv (t : ℝ) :
    HasDerivAt (fun s : ℝ => Real.arctan s - (s - s ^ 3 / 3 + s ^ 5 / 5 - s ^ 7 / 7))
      (1 / (1 + t ^ 2) - (1 - t ^ 2 + t ^ 4 - t ^ 6)) t := by
  have h1 := Real.hasDerivAt_arctan t
  have h3 : HasDerivAt (fun s : ℝ => s ^ 3) ((3 : ℕ) * t ^ 2) t := by
    simpa using hasDerivAt_pow 3 t
  have h5 : HasDerivAt (fun s : ℝ => s ^ 5) ((5 : ℕ) * t ^ 4) t := by
    simpa using hasDerivAt_pow 5 t
  have h7 : HasDerivAt (fun s : ℝ => s ^ 7) ((7 : ℕ) * t ^ 6) t := by
    simpa using hasDerivAt_pow 7 t
  have h2 : HasDerivAt (fun s : ℝ => s - s ^ 3 / 3 + s ^ 5 / 5 - s ^ 7 / 7)
      (1 - ((3 : ℕ) * t ^ 2) / 3 + ((5 : ℕ) * t ^ 4) / 5 - ((7 : ℕ) * t ^ 6) / 7) t :=
    (((hasDerivAt_id t).sub (h3.div_const 3)).add (h5.div_const 5)).sub (h7.div_const 7)
  have := h1.sub h2
  convert this using 1
  push_cast
  ring

lemma arctan_poly_lower {u : ℝ} (hu : 0 ≤ u) :
    u - u ^ 3 / 3 + u ^ 5 / 5 - u ^ 7 / 7 ≤ Real.arctan u := by
  have hmono : Monotone (fun s : ℝ =>
      Real.arctan s - (s - s ^ 3 / 3 + s ^ 5 / 5 - s ^ 7 / 7)) := by
    apply monotone_of_deriv_nonneg
    · exact fun t => (arctan_poly_hasDeriv t).differentiableAt
    · intro t
      rw [(arctan_poly_hasDeriv t).deriv]
      have hne : (1 : ℝ) + t ^ 2 ≠ 0 := by positivity
      have he : 1 / (1 + t ^ 2) - (1 - t ^ 2 + t ^ 4 - t ^ 6) = t ^ 8 / (1 + t ^ 2) := by
        field_simp
        ring
      rw [he]
      positivity
  have h0 := hmono hu
  simp only [Real.arctan_zero] at h0
  norm_num at h0
  linarith

/-- The numeric heart of the round-trip claim: the boundary latitude of
tile row 1 at the maximal zoom 22 is strictly below the clamp constant.
In radians: `arctan (sinh (pi * (1 - 2⁻²¹))) < 85.05112878 * pi / 180`. -/
lemma key_numeric_bound :
    Real.arctan (Real.sinh (π * (1 - 1 / 2 ^ 21))) < 85.05112878 * π / 180 := by
  set s : ℝ := Real.sinh (π * (1 - 1 / 2 ^ 21)) with hs
  have hargpos : (0 : ℝ) < π * (1 - 1 / 2 ^ 21) := by
    have := Real.pi_pos
    nlinarith
  have hspos : 0 < s := by
    rw [hs]
    exact Real.sinh_pos_iff.mpr hargpos
  have hA : π * (1 - 1 / 2 ^ 21) < (6588394901543 : ℝ) / 2097152000000 := by
    have hlt := Real.pi_lt_d6
    nlinarith
  have hq : (6588394901543 : ℝ) / 2097152000000 = 3 + 296938901543 / 2097152000000 := by
    norm_num
  have hexpq : Real.exp ((296938901543 : ℝ) / 2097152000000) ≤
      (∑ m ∈ Finset.range 8, ((296938901543 : ℝ) / 2097152000000) ^ m / m.factorial) +
        ((296938901543 : ℝ) / 2097152000000) ^ 8 * (8 + 1) / (Nat.factorial 8 * 8) :=
    Real.exp_bound' (by norm_num) (by norm_num) (by norm_num)
  have hq_up : (∑ m ∈ Finset.range 8, ((296938901543 : ℝ) / 2097152000000) ^ m / m.factorial) +
      ((296938901543 : ℝ) / 2097152000000) ^ 8 * (8 + 1) / (Nat.factorial 8 * 8) ≤
        (115210592 : ℝ) / 10 ^ 8 := by
    rw [Finset.sum_range_succ, Finset.sum_range_succ, Finset.sum_range_succ,
      Finset.sum_range_succ, Finset.sum_range_succ, Finset.sum_range_succ,
      Finset.sum_range_succ, Finset.sum_range_succ, Finset.sum_range_zero]
    norm_num [Nat.factorial]
  have hexp3 : Real.exp (3 : ℝ) < 2.7182818286 ^ 3 := by
    have h1 : Real.exp (3 : ℝ) = Real.exp 1 ^ 3 := by
      rw [← Real.exp_one_rpow 3]
      norm_num [Real.rpow_natCast]
    rw [h1]
    exact pow_lt_pow_left₀ Real.exp_one_lt_d9 (Real.exp_pos 1).le (by norm_num)
  have hexpA : Real.exp ((6588394901543 : ℝ) / 2097152000000) < (231406660 : ℝ) / 10 ^ 7 := by
    rw [hq, Real.exp_add]
    calc Real.exp (3 : ℝ) * Real.exp ((296938901543 : ℝ) / 2097152000000)
        ≤ Real.exp (3 : ℝ) * ((115210592 : ℝ) / 10 ^ 8) :=
          mul_le_mul_of_nonneg_left (le_trans hexpq hq_up) (Real.exp_pos 3).le
      _ < (2.7182818286 ^ 3 : ℝ) * ((115210592 : ℝ) / 10 ^ 8) :=
          mul_lt_mul_of_pos_right hexp3 (by norm_num)
      _ ≤ (231406660 : ℝ) / 10 ^ 7 := by norm_num
  have hexpApos : (0 : ℝ) < Real.exp ((6588394901543 : ℝ) / 2097152000000) := Real.exp_pos _
  have hinv : ((231406660 : ℝ) / 10 ^ 7)⁻¹ < Real.exp (-((6588394901543 : ℝ) / 2097152000000)) := by
    rw [Real.exp_neg]
    exact inv_strictAnti₀ hexpApos hexpA
  have hsinhA : s < (11548726016001 : ℝ) / 10 ^ 12 := by
    have h1 : s < Real.sinh ((6588394901543 : ℝ) / 2097152000000) := by
      rw [hs]
      exact Real.sinh_lt_sinh.mpr hA
    have h2 : Real.sinh ((6588394901543 : ℝ) / 2097152000000) <
        (((231406660 : ℝ) / 10 ^ 7) - ((231406660 : ℝ) / 10 ^ 7)⁻¹) / 2 := by
      rw [Real.sinh_eq]
      have := hexpA
      have := hinv
      linarith
    have h3 : ((((231406660 : ℝ) / 10 ^ 7) - ((231406660 : ℝ) / 10 ^ 7)⁻¹) / 2) ≤
        (11548726016001 : ℝ) / 10 ^ 12 := by
      rw [inv_eq_one_div]
      norm_num
    linarith
  have hu0 : (86589637559 : ℝ) / 10 ^ 12 < s⁻¹ := by
    have h1 : ((11548726016001 : ℝ) / 10 ^ 12)⁻¹ < s⁻¹ := inv_strictAnti₀ hspos hsinhA
    have h2 : (86589637559 : ℝ) / 10 ^ 12 ≤ ((11548726016001 : ℝ) / 10 ^ 12)⁻¹ := by
      rw [le_inv_comm₀]
      · norm_num
      · norm_num
      · norm_num
    linarith
  have harct : Real.arctan ((86589637559 : ℝ) / 10 ^ 12) < Real.arctan s⁻¹ :=
    Real.arctan_strictMono hu0
  have hpoly := arctan_poly_lower (u := (86589637559 : ℝ) / 10 ^ 12) (by norm_num)
  have hrat : (1 / 2 - 85.05112878 / 180 : ℝ) * 3.141593 <
      (86589637559 : ℝ) / 10 ^ 12 - ((86589637559 : ℝ) / 10 ^ 12) ^ 3 / 3 +
        ((86589637559 : ℝ) / 10 ^ 12) ^ 5 / 5 - ((86589637559 : ℝ) / 10 ^ 12) ^ 7 / 7 := by
    norm_num
  have hc0pi : (1 / 2 - 85.05112878 / 180 : ℝ) * π <
      (1 / 2 - 85.05112878 / 180 : ℝ) * 3.141593 :=
    mul_lt_mul_of_pos_left Real.pi_lt_d6 (by norm_num)
  have hfinal : (1 / 2 - 85.05112878 / 180 : ℝ) * π < Real.arctan s⁻¹ := by
    linarith
  have hinv_id : Real.arctan s⁻¹ = π / 2 - Real.arctan s := Real.arctan_inv_of_pos hspos
  rw [hinv_id] at hfinal
  have hlast : Real.arctan s < π / 2 - (1 / 2 - 85.05112878 / 180) * π := by linarith
  calc Real.arctan s < π / 2 - (1 / 2 - 85.05112878 / 180) * π := hlast
    _ = 85.05112878 * π / 180 := by ring

lemma tan_add_sec_pos {θ : ℝ} (hθ : θ ∈ Set.Ioo (-(π / 2)) (π / 2)) :
    0 < Real.tan θ + 1 / Real.cos θ := by
  have hcos : 0 < Real.cos θ := Real.cos_pos_of_mem_Ioo hθ
  have hsin : -1 < Real.sin θ := by
    have hmem1 : -(π / 2) ∈ Set.Icc (-(π / 2)) (π / 2) := by
      constructor
      · exact le_refl _
      · linarith [Real.pi_pos]
    have hmem2 : θ ∈ Set.Icc (-(π / 2)) (π / 2) := ⟨hθ.1.le, hθ.2.le⟩
    have := Real.strictMonoOn_sin hmem1 hmem2 hθ.1
    rwa [Real.sin_neg, Real.sin_pi_div_two] at this
  have heq : Real.tan θ + 1 / Real.cos θ = (Real.sin θ + 1) / Real.cos θ := by
    rw [Real.tan_eq_sin_div_cos]
    ring
  rw [heq]
  exact div_pos (by linarith) hcos

lemma tan_add_sec_strictMonoOn :
    StrictMonoOn (fun θ : ℝ => Real.tan θ + 1 / Real.cos θ)
      (Set.Ioo (-(π / 2)) (π / 2)) := by
  apply strictMonoOn_of_deriv_pos (convex_Ioo _ _)
  · apply ContinuousOn.add
    · exact Real.continuousOn_tan.mono
        (fun x hx => (Real.cos_pos_of_mem_Ioo hx).ne')
    · exact continuousOn_const.div Real.continuous_cos.continuousOn
        (fun x hx => (Real.cos_pos_of_mem_Ioo hx).ne')
  · intro t ht
    rw [interior_Ioo] at ht
    have hcos : 0 < Real.cos t := Real.cos_pos_of_mem_Ioo ht
    have h1 := Real.hasDerivAt_tan hcos.ne'
    have h2 : HasDerivAt (fun θ : ℝ => 1 / Real.cos θ)
        (Real.sin t / Real.cos t ^ 2) t := by
      have h := (Real.hasDerivAt_cos t).inv hcos.ne'
      simpa [one_div, neg_div, neg_neg] using h
    have hd := h1.add h2
    rw [hd.deriv]
    have hsin : -1 < Real.sin t := by
      have hmem1 : -(π / 2) ∈ Set.Icc (-(π / 2)) (π / 2) := by
        constructor
        · exact le_refl _
        · linarith [Real.pi_pos]
      have hmem2 : t ∈ Set.Icc (-(π / 2)) (π / 2) := ⟨ht.1.le, ht.2.le⟩
      have := Real.strictMonoOn_sin hmem1 hmem2 ht.1
      rwa [Real.sin_neg, Real.sin_pi_div_two] at this
    have heq : 1 / Real.cos t ^ 2 + Real.sin t / Real.cos t ^ 2 =
        (1 + Real.sin t) / Real.cos t ^ 2 := by ring
    rw [heq]
    exact div_pos (by linarith) (by positivity)

/-- Gudermannian identity: evaluating the Mercator integrand at
`arctan (sinh v)` recovers `exp v`. -/
lemma tan_add_sec_of_arctan_sinh (v : ℝ) :
    Real.tan (Real.arctan (Real.sinh v)) +
      1 / Real.cos (Real.arctan (Real.sinh v)) = Real.exp v := by
  rw [Real.tan_arctan, Real.cos_arctan, one_div_one_div]
  have h : (1 : ℝ) + Real.sinh v ^ 2 = Real.cosh v ^ 2 := by
    rw [Real.cosh_sq]
    ring
  rw [h, Real.sqrt_sq (Real.cosh_pos v).le, Real.sinh_add_cosh]

lemma arctan_sinh_mem_deg (u : ℝ) :
    Real.arctan (Real.sinh u) * 180 / π ∈ Set.Ioo (-90 : ℝ) 90 := by
  have h1 := Real.arctan_lt_pi_div_two (Real.sinh u)
  have h2 := Real.neg_pi_div_two_lt_arctan (Real.sinh u)
  have hp : (0 : ℝ) < 180 / π := by positivity
  constructor
  · have key := mul_lt_mul_of_pos_right h2 hp
    have e : (-(π / 2)) * (180 / π) = -90 := by
      field_simp
      ring
    rw [mul_div_assoc]
    linarith
  · have key := mul_lt_mul_of_pos_right h1 hp
    have e : (π / 2) * (180 / π) = 90 := by
      field_simp
      ring
    rw [mul_div_assoc]
    linarith

lemma lat_deg_mem (n : ℤ) (t : ℤ) : lat_deg n t ∈ Set.Ioo (-90 : ℝ) 90 :=
  arctan_sinh_mem_deg _

lemma deg_rad_mem {a : ℝ} (ha : a ∈ Set.Ioo (-90 : ℝ) 90) :
    a * π / 180 ∈ Set.Ioo (-(π / 2)) (π / 2) := by
  obtain ⟨h1, h2⟩ := ha
  have hp : (0 : ℝ) < π := Real.pi_pos
  constructor
  · have := mul_lt_mul_of_pos_right h1 hp
    rw [mul_div_assoc]
    have e : (-90 : ℝ) * π / 180 = -(π / 2) := by ring
    calc -(π / 2) = (-90 : ℝ) * π / 180 := e.symm
      _ < a * π / 180 := by linarith
      _ = a * (π / 180) := by ring
  · have := mul_lt_mul_of_pos_right h2 hp
    rw [mul_div_assoc]
    calc a * (π / 180) = a * π / 180 := by ring
      _ < (90 : ℝ) * π / 180 := by linarith
      _ = π / 2 := by ring

/-- The forward Mercator `y_norm` is strictly decreasing in the latitude on
`(-90, 90)` degrees. -/
lemma y_norm_strictAnti {a b : ℝ} (ha : a ∈ Set.Ioo (-90 : ℝ) 90)
    (hb : b ∈ Set.Ioo (-90 : ℝ) 90) (hab : a < b) : y_norm b < y_norm a := by
  unfold y_norm
  have hra := deg_rad_mem ha
  have hrb := deg_rad_mem hb
  have hrab : a * π / 180 < b * π / 180 := by
    have hp : (0 : ℝ) < π := Real.pi_pos
    have := mul_lt_mul_of_pos_right hab hp
    linarith
  have key := tan_add_sec_strictMonoOn hra hrb hrab
  have pos_a := tan_add_sec_pos hra
  have hlog := Real.log_lt_log pos_a key
  have hdiv : Real.log (Real.tan (a * π / 180) + 1 / Real.cos (a * π / 180)) / π <
      Real.log (Real.tan (b * π / 180) + 1 / Real.cos (b * π / 180)) / π :=
    (div_lt_div_iff_of_pos_right Real.pi_pos).mpr hlog
  linarith

lemma y_norm_anti_le {a b : ℝ} (ha : a ∈ Set.Ioo (-90 : ℝ) 90)
    (hb : b ∈ Set.Ioo (-90 : ℝ) 90) (hab : a ≤ b) : y_norm b ≤ y_norm a := by
  rcases eq_or_lt_of_le hab with h | h
  · rw [h]
  · exact (y_norm_strictAnti ha hb h).le

/-- `y_norm` inverts `lat_deg`: the forward projection of a tile-boundary
latitude is the tile-boundary fraction. -/
lemma y_norm_lat_deg (n : ℤ) (hn : (0 : ℝ) < (n : ℝ)) (t : ℤ) :
    y_norm (lat_deg n t) = (t : ℝ) / (n : ℝ) := by
  unfold y_norm lat_deg
  have hπ : π ≠ 0 := Real.pi_ne_zero
  have harg : Real.arctan (Real.sinh (π * (1 - 2 * (t : ℝ) / (n : ℝ)))) * 180 / π * π / 180
      = Real.arctan (Real.sinh (π * (1 - 2 * (t : ℝ) / (n : ℝ)))) := by
    field_simp
  rw [harg, tan_add_sec_of_arctan_sinh, Real.log_exp]
  have hne : (n : ℝ) ≠ 0 := ne_of_gt hn
  field_simp
  ring

/-- Every tile-boundary latitude of a row `t ≥ 1` is strictly below the
clamp constant (for any zoom up to 22). -/
lemma lat_deg_lt_clamp (n : ℤ) (t : ℤ) (hn1 : 1 ≤ n) (hn2 : n ≤ 2 ^ 22)
    (ht : 1 ≤ t) : lat_deg n t < 85.05112878 := by
  unfold lat_deg
  have hN : (0 : ℝ) < (n : ℝ) := by exact_mod_cast lt_of_lt_of_le one_pos hn1
  have hN2 : (n : ℝ) ≤ 2 ^ 22 := by exact_mod_cast hn2
  have ht' : (1 : ℝ) ≤ (t : ℝ) := by exact_mod_cast ht
  have hfrac : (1 : ℝ) / 2 ^ 21 ≤ 2 * (t : ℝ) / (n : ℝ) := by
    rw [div_le_div_iff₀ (by norm_num) hN]
    nlinarith
  have harg : π * (1 - 2 * (t : ℝ) / (n : ℝ)) ≤ π * (1 - 1 / 2 ^ 21) :=
    mul_le_mul_of_nonneg_left (by linarith) Real.pi_pos.le
  have h1 : Real.arctan (Real.sinh (π * (1 - 2 * (t : ℝ) / (n : ℝ)))) ≤
      Real.arctan (Real.sinh (π * (1 - 1 / 2 ^ 21))) :=
    Real.arctan_strictMono.monotone (Real.sinh_le_sinh.mpr harg)
  have h2 := key_numeric_bound
  have hp : (0 : ℝ) < 180 / π := by positivity
  rw [mul_div_assoc]
  calc Real.arctan (Real.sinh (π * (1 - 2 * (t : ℝ) / (n : ℝ)))) * (180 / π)
      ≤ Real.arctan (Real.sinh (π * (1 - 1 / 2 ^ 21))) * (180 / π) :=
        mul_le_mul_of_nonneg_right h1 hp.le
    _ < (85.05112878 * π / 180) * (180 / π) := mul_lt_mul_of_pos_right h2 hp
    _ = 85.05112878 := by
        field_simp

/-- Every tile-boundary latitude of a row `t ≤ n - 1` is strictly above the
negated clamp constant (for any zoom up to 22). -/
lemma neg_clamp_lt_lat_deg (n : ℤ) (t : ℤ) (hn1 : 1 ≤ n) (hn2 : n ≤ 2 ^ 22)
    (ht : t ≤ n - 1) : -85.05112878 < lat_deg n t := by
  unfold lat_deg
  have hN : (0 : ℝ) < (n : ℝ) := by exact_mod_cast lt_of_lt_of_le one_pos hn1
  have hN2 : (n : ℝ) ≤ 2 ^ 22 := by exact_mod_cast hn2
  have ht' : (t : ℝ) ≤ (n : ℝ) - 1 := by
    have : (t : ℝ) ≤ ((n - 1 : ℤ) : ℝ) := by exact_mod_cast ht
    push_cast at this
    linarith
  have hfrac : (1 : ℝ) / 2 ^ 21 ≤ 2 / (n : ℝ) := by
    rw [div_le_div_iff₀ (by norm_num) hN]
    linarith
  have hupper : 2 * (t : ℝ) / (n : ℝ) ≤ 2 - 2 / (n : ℝ) := by
    rw [div_le_iff₀ hN]
    have h2 : (2 - 2 / (n : ℝ)) * (n : ℝ) = 2 * (n : ℝ) - 2 := by
      field_simp
    rw [h2]
    linarith
  have harg : π * (-(1 - 1 / 2 ^ 21)) ≤ π * (1 - 2 * (t : ℝ) / (n : ℝ)) :=
    mul_le_mul_of_nonneg_left (by linarith) Real.pi_pos.le
  have h1 : Real.arctan (Real.sinh (π * (-(1 - 1 / 2 ^ 21)))) ≤
      Real.arctan (Real.sinh (π * (1 - 2 * (t : ℝ) / (n : ℝ)))) :=
    Real.arctan_strictMono.monotone (Real.sinh_le_sinh.mpr harg)
  have hodd : Real.arctan (Real.sinh (π * (-(1 - 1 / 2 ^ 21)))) =
      -Real.arctan (Real.sinh (π * (1 - 1 / 2 ^ 21))) := by
    rw [show π * (-(1 - 1 / 2 ^ 21)) = -(π * (1 - 1 / 2 ^ 21)) by ring,
      Real.sinh_neg, Real.arctan_neg]
  rw [hodd] at h1
  have h2 := key_numeric_bound
  have hp : (0 : ℝ) < 180 / π := by positivity
  rw [mul_div_assoc]
  have hstep : -((85.05112878 : ℝ) * π / 180) * (180 / π) <
      -Real.arctan (Real.sinh (π * (1 - 1 / 2 ^ 21))) * (180 / π) := by
    apply mul_lt_mul_of_pos_right _ hp
    linarith
  have he : -((85.05112878 : ℝ) * π / 180) * (180 / π) = -85.05112878 := by
    field_simp
    ring
  calc (-85.05112878 : ℝ) = -((85.05112878 : ℝ) * π / 180) * (180 / π) := he.symm
    _ < -Real.arctan (Real.sinh (π * (1 - 1 / 2 ^ 21))) * (180 / π) := hstep
    _ ≤ Real.arctan (Real.sinh (π * (1 - 2 * (t : ℝ) / (n : ℝ)))) * (180 / π) :=
        mul_le_mul_of_nonneg_right h1 hp.le

/-- The horizontal midpoint of a tile's bounds projects back to the tile
column plus one half. -/
lemma x_norm_center (x n : ℤ) (hn : (0 : ℝ) < (n : ℝ)) :
    x_norm ((lon_deg n x + lon_deg n (x + 1)) / 2) * (n : ℝ) = (x : ℝ) + 1 / 2 := by
  unfold x_norm lon_deg
  have hne : (n : ℝ) ≠ 0 := ne_of_gt hn
  push_cast
  field_simp
  ring

/-! ### C2: round trip through the tile center -/

/-- C2: for every valid tile `(x, y)` at zoom `z` in `[0, 22]`, projecting
the center point of the rectangle returned by `tile_to_bounds` back through
`latlon_to_tile` at the same zoom yields the same tile indices. -/
theorem C2_center_roundtrip (x y z : ℤ)
    (hx : 0 ≤ x ∧ x < 2 ^ z.toNat) (hy : 0 ≤ y ∧ y < 2 ^ z.toNat)
    (hz : 0 ≤ z ∧ z ≤ 22) :
    ∃ px py,
      latlon_to_tile
        (((tile_to_bounds x y z).2.1 + (tile_to_bounds x y z).2.2.2) / 2)
        (((tile_to_bounds x y z).1 + (tile_to_bounds x y z).2.2.1) / 2)
        z 256 = .ok (x, y, px, py) := by
  have hb : tile_to_bounds x y z =
      (lon_deg (2 ^ z.toNat) x, lat_deg (2 ^ z.toNat) (y + 1),
       lon_deg (2 ^ z.toNat) (x + 1), lat_deg (2 ^ z.toNat) y) := rfl
  rw [hb]
  set n : ℤ := 2 ^ z.toNat with hn
  have hnpos : (0 : ℤ) < n := pow_pos (by norm_num) _
  have hn1 : (1 : ℤ) ≤ n := hnpos
  have hn22 : n ≤ 2 ^ 22 := by
    rw [hn]
    exact pow_le_pow_right₀ (by norm_num) (by omega)
  have hN : (0 : ℝ) < (n : ℝ) := by exact_mod_cast hnpos
  -- the center longitude is a valid longitude
  have hlon_lo : (-180 : ℝ) ≤ lon_deg n x := by
    unfold lon_deg
    have hx0 : (0 : ℝ) ≤ (x : ℝ) := by exact_mod_cast hx.1
    have hd : 0 ≤ (x : ℝ) / (n : ℝ) * 360 := by positivity
    linarith
  have hlon_hi : lon_deg n (x + 1) ≤ 180 := by
    unfold lon_deg
    have hxn : ((x + 1 : ℤ) : ℝ) ≤ (n : ℝ) := by exact_mod_cast hx.2
    have hdiv : ((x + 1 : ℤ) : ℝ) / (n : ℝ) ≤ 1 := by
      rw [div_le_one hN]
      exact hxn
    nlinarith
  have hlon_lt := lon_deg_strictMono n hN (show x < x + 1 by omega)
  have hlonc_mem : -180 ≤ (lon_deg n x + lon_deg n (x + 1)) / 2 ∧
      (lon_deg n x + lon_deg n (x + 1)) / 2 ≤ 180 := by
    constructor <;> [linarith; linarith]
  -- latitude facts
  have hyy := lat_deg_strictAnti n hN (show y < y + 1 by omega)
  have hmem_y := lat_deg_mem n y
  have hmem_y1 := lat_deg_mem n (y + 1)
  have hM90 : (85.05112878 : ℝ) < 90 := by norm_num
  have hMy1 : lat_deg n (y + 1) < 85.05112878 :=
    lat_deg_lt_clamp n (y + 1) hn1 hn22 (by omega)
  have hMy : -85.05112878 < lat_deg n y :=
    neg_clamp_lt_lat_deg n y hn1 hn22 (by omega)
  set latc := (lat_deg n (y + 1) + lat_deg n y) / 2 with hlatc
  have hbetween1 : lat_deg n (y + 1) < latc := by
    rw [hlatc]
    linarith
  have hbetween2 : latc < lat_deg n y := by
    rw [hlatc]
    linarith
  set φ := clamp_lat latc with hφ
  have hφclamp := clamp_lat_mem latc
  have hφmem : φ ∈ Set.Ioo (-90 : ℝ) 90 := by
    rw [hφ]
    exact ⟨by linarith [hφclamp.1], by linarith [hφclamp.2]⟩
  have hφ_le : φ ≤ lat_deg n y := by
    rw [hφ]
    unfold clamp_lat
    apply max_le
    · exact le_trans (min_le_left _ _) hbetween2.le
    · linarith
  have hφ_gt : lat_deg n (y + 1) < φ := by
    rw [hφ]
    unfold clamp_lat
    exact lt_of_lt_of_le (lt_min hbetween1 hMy1) (le_max_left _ _)
  have hyn_le : y_norm (lat_deg n y) ≤ y_norm φ :=
    y_norm_anti_le hφmem hmem_y hφ_le
  have hyn_lt : y_norm φ < y_norm (lat_deg n (y + 1)) :=
    y_norm_strictAnti hmem_y1 hφmem hφ_gt
  rw [y_norm_lat_deg n hN y] at hyn_le
  rw [y_norm_lat_deg n hN (y + 1)] at hyn_lt
  -- floors
  have hfloor_y : ⌊y_norm φ * (n : ℝ)⌋ = y := by
    rw [Int.floor_eq_iff]
    constructor
    · exact (div_le_iff₀ hN).mp hyn_le
    · have h := (lt_div_iff₀ hN).mp hyn_lt
      push_cast at h
      linarith
  have hfloor_x : ⌊x_norm ((lon_deg n x + lon_deg n (x + 1)) / 2) * (n : ℝ)⌋ = x := by
    rw [x_norm_center x n hN, Int.floor_eq_iff]
    constructor
    · linarith
    · linarith
  rw [latlon_to_tile_ok _ _ z 256 hlonc_mem hz]
  rw [← hn, ← hφ, hfloor_x, hfloor_y,
    min_eq_left (show x ≤ n - 1 by omega), max_eq_right hx.1,
    min_eq_left (show y ≤ n - 1 by omega), max_eq_right hy.1]
  exact ⟨_, _, rfl⟩

/-- Witness for C2 at tile `(0, 0)`, zoom 0. -/
theorem C2_witness :
    ∃ px py,
      latlon_to_tile
        (((tile_to_bounds 0 0 0).2.1 + (tile_to_bounds 0 0 0).2.2.2) / 2)
        (((tile_to_bounds 0 0 0).1 + (tile_to_bounds 0 0 0).2.2.1) / 2)
        0 256 = .ok (0, 0, px, py) :=
  C2_center_roundtrip 0 0 0 (by norm_num) (by norm_num) (by norm_num)

end TilesDemo
